import Mathlib

/-!
Shallow embedding of `jedi/evaluate/representation.py` (the representation and
evaluation layer of the jedi static analyzer) together with proofs about the
claims of its specification.

Modelling conventions:
* Wrapper objects (`Class`, `Function`, …) are memoized per syntax node within a
  session, so Python identity (`in`, `==` defaults) coincides with equality of
  the underlying node; classes are therefore referenced by a node id and
  compared structurally.
* External collaborators (the expression evaluator, flow analysis, the compiled
  object model, docstring inference) are inputs of the embedded functions: each
  embedded function receives the value the collaborator would have produced.
* Recursive evaluation is written with an explicit fuel parameter so that it is
  executable and total. Fuel exhaustion returns the memoization placeholder
  default (the empty tuple for `py__mro__`, the empty type list for
  `get_return_types`), which is exactly what the in-flight `memoize_default`
  placeholder and the recursion guard of the system produce on re-entry; for the
  acyclic inputs the claims are about, the chosen fuel is enough for the
  recursion to play out fully.
-/

set_option linter.unusedVariables false

namespace Jedi

/-!  ### Classes, `py__bases__` and `py__mro__`  -/

/-- A base-class value: either a `Class` wrapper identified by the id of the
class node it wraps, or an externally defined `compiled.CompiledObject` (such as
`compiled.object_obj`) with its name and subscope names. -/
inductive BaseRef : Type where
  | cls (id : Nat)
  | compiled (name : String) (subs : List String)
deriving DecidableEq

/-- Modelled from the spec: `compiled.object_obj`, the implicit universal base
class supplied by the external compiled-object model (`object` contributes no
subscopes relevant to this module). -/
def object_obj : BaseRef := .compiled "object" []

/-- What this module reads off one source class node: `subs` are the names of
its subscopes (functions and nested classes of the class body, in declaration
order), and `supers` holds, for each super-class statement of the class header
(declared left-to-right), the list of results the external evaluator yields for
it — `some b` for a result that is a `Class` or `CompiledObject`, `none` for
any other result. -/
structure ClassDecl where
  subs : List String
  supers : List (List (Option BaseRef))
deriving DecidableEq

/-- A session's class nodes, indexed by class id (ids outside the list denote
empty class declarations). -/
def lookupClass (env : List ClassDecl) (i : Nat) : ClassDecl :=
  env.getD i ⟨[], []⟩

/-- The usable results of evaluating all super-class statements of a class
header: each statement's results are filtered to those that are a class or a
compiled object (`debug.warning('Received non class as a super class.')` is
logged for the rest, which are discarded). -/
def evalSupers (supers : List (List (Option BaseRef))) : List BaseRef :=
  (supers.map (fun stmtResults => stmtResults.filterMap (fun r => r))).flatten

/-- `Class.py__bases__`: evaluate every super-class statement, discard non-class
results, and substitute `[object_obj]` when nothing usable remains. -/
def py__bases__ (env : List ClassDecl) (i : Nat) : List BaseRef :=
  let supersEval := evalSupers (lookupClass env i).supers
  if supersEval.isEmpty then [object_obj] else supersEval

/-- The local helper `add` of `Class.py__mro__`: append `cls` to the mro if it
is not already present. -/
def addUnique (mro : List BaseRef) (cls : BaseRef) : List BaseRef :=
  if cls ∈ mro then mro else mro ++ [cls]

/-- `Class.py__mro__` with explicit fuel (see the module comment): start from
`[self]`, and for each base (left-to-right) append the base and then every
entry of the base's own mro, skipping entries already present. The mro of a
compiled object is modelled from the spec as the object itself. -/
def py_mro_fuel (env : List ClassDecl) : Nat → BaseRef → List BaseRef
  | 0, _ => []
  | _ + 1, .compiled nm subs => [.compiled nm subs]
  | n + 1, .cls i =>
      (py__bases__ env i).foldl
        (fun mro cls => (py_mro_fuel env n cls).foldl addUnique (addUnique mro cls))
        [BaseRef.cls i]

/-- `Class.py__mro__` of a class value: fuel `env.length + 1` covers every
acyclic hierarchy of the session. -/
def py__mro__ (env : List ClassDecl) (c : BaseRef) : List BaseRef :=
  py_mro_fuel env (env.length + 1) c

/-- The subscope names of a base value. -/
def subscopesOf (env : List ClassDecl) : BaseRef → List String
  | .compiled _ subs => subs
  | .cls i => (lookupClass env i).subs

/-- `Class.get_subscope_by_name`: search the class itself and then each of its
direct bases (in `py__bases__` order) for a subscope of the given name,
returning the first scope that declares one (the source returns the matching
subscope object; the owning scope identifies it here). `none` models the
`KeyError` raised when no scope matches. -/
def get_subscope_by_name (env : List ClassDecl) (i : Nat) (name : String) :
    Option BaseRef :=
  (BaseRef.cls i :: py__bases__ env i).find? (fun s => name ∈ subscopesOf env s)

/-- `Instance.py__call__`: accessing the property looks up `__call__` through
`get_subscope_by_name`; `some` means the access succeeds and invocation is
forwarded to the evaluator, `none` models the `KeyError` turned into
`AttributeError` — the instance is not callable. -/
def instance_py__call__ (env : List ClassDecl) (i : Nat) : Option BaseRef :=
  get_subscope_by_name env i "__call__"

/-- Class hierarchy of the specification's MRO example: `A(object)`, `B(A)`,
`C(B, A)`, with ids 0, 1, 2. -/
def mroExampleEnv : List ClassDecl :=
  [⟨[], [[some object_obj]]⟩,
   ⟨[], [[some (.cls 0)]]⟩,
   ⟨[], [[some (.cls 1)], [some (.cls 0)]]⟩]

example : py__mro__ mroExampleEnv (.cls 2) =
    [.cls 2, .cls 1, .cls 0, object_obj] := by decide

/-!  ### Invariants of `addUnique` and the mro fold  -/

theorem addUnique_ne_nil (l : List BaseRef) (c : BaseRef) : addUnique l c ≠ [] := by
  unfold addUnique
  split
  · exact List.ne_nil_of_mem (by assumption)
  · simp

theorem addUnique_head? (l : List BaseRef) (c : BaseRef) (h : l ≠ []) :
    (addUnique l c).head? = l.head? := by
  unfold addUnique
  split
  · rfl
  · cases l with
    | nil => exact absurd rfl h
    | cons a t => rfl

theorem subset_addUnique (l : List BaseRef) (c : BaseRef) : l ⊆ addUnique l c := by
  unfold addUnique
  split
  · exact fun _ h => h
  · exact List.subset_append_left _ _

theorem mem_addUnique (l : List BaseRef) (c : BaseRef) : c ∈ addUnique l c := by
  unfold addUnique
  split
  · assumption
  · simp

theorem addUnique_nodup (l : List BaseRef) (c : BaseRef) (h : l.Nodup) :
    (addUnique l c).Nodup := by
  unfold addUnique
  split
  · exact h
  · rename_i hc
    refine List.Nodup.append h (List.nodup_singleton c) ?_
    intro a ha hb
    rw [List.mem_singleton] at hb
    exact hc (hb ▸ ha)

theorem foldl_addUnique_ne_nil (xs : List BaseRef) (acc : List BaseRef)
    (h : acc ≠ []) : xs.foldl addUnique acc ≠ [] := by
  induction xs generalizing acc with
  | nil => exact h
  | cons x t ih => exact ih _ (addUnique_ne_nil _ _)

theorem foldl_addUnique_head? (xs : List BaseRef) (acc : List BaseRef)
    (h : acc ≠ []) : (xs.foldl addUnique acc).head? = acc.head? := by
  induction xs generalizing acc with
  | nil => rfl
  | cons x t ih =>
    rw [List.foldl_cons, ih _ (addUnique_ne_nil _ _), addUnique_head? _ _ h]

theorem subset_foldl_addUnique (xs : List BaseRef) (acc : List BaseRef) :
    acc ⊆ xs.foldl addUnique acc := by
  induction xs generalizing acc with
  | nil => exact fun _ h => h
  | cons x t ih => exact (subset_addUnique _ _).trans (ih _)

theorem foldl_addUnique_nodup (xs : List BaseRef) (acc : List BaseRef)
    (h : acc.Nodup) : (xs.foldl addUnique acc).Nodup := by
  induction xs generalizing acc with
  | nil => exact h
  | cons x t ih => exact ih _ (addUnique_nodup _ _ h)

/-- One step of the `py__mro__` fold, for an arbitrary recursive mro `f`. -/
theorem mroStep_ne_nil (f : BaseRef → List BaseRef) (l : List BaseRef)
    (x : BaseRef) : (f x).foldl addUnique (addUnique l x) ≠ [] :=
  foldl_addUnique_ne_nil _ _ (addUnique_ne_nil l x)

theorem mroStep_head? (f : BaseRef → List BaseRef) (l : List BaseRef)
    (x : BaseRef) (h : l ≠ []) :
    ((f x).foldl addUnique (addUnique l x)).head? = l.head? := by
  rw [foldl_addUnique_head? _ _ (addUnique_ne_nil l x), addUnique_head? _ _ h]

theorem mroStep_subset (f : BaseRef → List BaseRef) (l : List BaseRef)
    (x : BaseRef) : l ⊆ (f x).foldl addUnique (addUnique l x) :=
  (subset_addUnique _ _).trans (subset_foldl_addUnique _ _)

theorem mroStep_mem (f : BaseRef → List BaseRef) (l : List BaseRef)
    (x : BaseRef) : x ∈ (f x).foldl addUnique (addUnique l x) :=
  subset_foldl_addUnique _ _ (mem_addUnique _ _)

theorem mroStep_nodup (f : BaseRef → List BaseRef) (l : List BaseRef)
    (x : BaseRef) (h : l.Nodup) :
    ((f x).foldl addUnique (addUnique l x)).Nodup :=
  foldl_addUnique_nodup _ _ (addUnique_nodup _ _ h)

theorem mroFold_head? (f : BaseRef → List BaseRef) (xs : List BaseRef)
    (acc : List BaseRef) (h : acc ≠ []) :
    (xs.foldl (fun mro cls => (f cls).foldl addUnique (addUnique mro cls)) acc).head?
      = acc.head? := by
  induction xs generalizing acc with
  | nil => rfl
  | cons x t ih =>
    rw [List.foldl_cons, ih _ (mroStep_ne_nil f _ _), mroStep_head? f _ _ h]

theorem mroFold_subset (f : BaseRef → List BaseRef) (xs : List BaseRef)
    (acc : List BaseRef) :
    acc ⊆ xs.foldl (fun mro cls => (f cls).foldl addUnique (addUnique mro cls)) acc := by
  induction xs generalizing acc with
  | nil => exact fun _ h => h
  | cons x t ih => exact (mroStep_subset f _ _).trans (ih _)

theorem mroFold_mem (f : BaseRef → List BaseRef) (xs : List BaseRef)
    (acc : List BaseRef) (b : BaseRef) (hb : b ∈ xs) :
    b ∈ xs.foldl (fun mro cls => (f cls).foldl addUnique (addUnique mro cls)) acc := by
  induction xs generalizing acc with
  | nil => cases hb
  | cons x t ih =>
    rw [List.mem_cons] at hb
    rcases hb with rfl | hb
    · exact mroFold_subset f t _ (mroStep_mem f _ _)
    · exact ih _ hb

theorem mroFold_nodup (f : BaseRef → List BaseRef) (xs : List BaseRef)
    (acc : List BaseRef) (h : acc.Nodup) :
    (xs.foldl (fun mro cls => (f cls).foldl addUnique (addUnique mro cls)) acc).Nodup := by
  induction xs generalizing acc with
  | nil => exact h
  | cons x t ih => exact ih _ (mroStep_nodup f _ _ h)

theorem py_mro_fuel_head? (env : List ClassDecl) (n : Nat) (c : BaseRef) :
    (py_mro_fuel env (n + 1) c).head? = some c := by
  cases c with
  | compiled nm subs => rfl
  | cls i =>
    show ((py__bases__ env i).foldl _ [BaseRef.cls i]).head? = _
    rw [mroFold_head? (py_mro_fuel env n) _ _ (by simp)]
    rfl

theorem py_mro_fuel_bases_mem (env : List ClassDecl) (n : Nat) (i : Nat)
    (b : BaseRef) (hb : b ∈ py__bases__ env i) :
    b ∈ py_mro_fuel env (n + 1) (.cls i) :=
  mroFold_mem (py_mro_fuel env n) _ _ b hb

theorem py_mro_fuel_nodup (env : List ClassDecl) (n : Nat) (c : BaseRef) :
    (py_mro_fuel env (n + 1) c).Nodup := by
  cases c with
  | compiled nm subs => simp [py_mro_fuel]
  | cls i => exact mroFold_nodup (py_mro_fuel env n) _ _ (List.nodup_singleton _)

/-!  ### Claims C1, C6, C7  -/

/-- C1: `py__mro__` starts with the class itself, contains every base, has no
duplicates, and on the hierarchy `A(object)`, `B(A)`, `C(B, A)` the resolution
order of `C` is exactly `[C, B, A, object]`. -/
theorem claim_C1 (env : List ClassDecl) (i : Nat) :
    (py__mro__ env (.cls i)).head? = some (BaseRef.cls i)
    ∧ (∀ b, b ∈ py__bases__ env i → b ∈ py__mro__ env (.cls i))
    ∧ (py__mro__ env (.cls i)).Nodup
    ∧ py__mro__ mroExampleEnv (.cls 2) = [.cls 2, .cls 1, .cls 0, object_obj] := by
  refine ⟨py_mro_fuel_head? env env.length _,
          fun b hb => py_mro_fuel_bases_mem env env.length i b hb,
          py_mro_fuel_nodup env env.length _, by decide⟩

/-- Witness for C1: instantiating the base-membership invariant on the example
hierarchy, `B` is a base of `C` and therefore in `C`'s mro. -/
theorem claim_C1_witness : BaseRef.cls 1 ∈ py__mro__ mroExampleEnv (.cls 2) :=
  (claim_C1 mroExampleEnv 2).2.1 (BaseRef.cls 1) (by decide)

/-- C6: `py__bases__` never returns an empty list; every returned base is one of
the usable (class or compiled) evaluated super results — the rest having been
discarded with a warning — and when no usable result remains the returned list
is exactly the implicit universal base `[object]`. -/
theorem claim_C6 (env : List ClassDecl) (i : Nat) :
    py__bases__ env i ≠ []
    ∧ (∀ b, b ∈ py__bases__ env i →
        b ∈ evalSupers (lookupClass env i).supers
        ∨ (evalSupers (lookupClass env i).supers = [] ∧ b = object_obj))
    ∧ (evalSupers (lookupClass env i).supers = [] →
        py__bases__ env i = [object_obj]) := by
  unfold py__bases__
  rcases h : evalSupers (lookupClass env i).supers with _ | ⟨x, t⟩
  · simp
  · refine ⟨by simp, ?_, by simp⟩
    intro b hb
    simp only [List.isEmpty_cons, ite_false, Bool.false_eq_true, if_false] at hb
    exact Or.inl (h ▸ hb)

/-- An environment whose only class has one super statement evaluating to a
class result plus a discarded non-class result. -/
def basesExampleEnv : List ClassDecl := [⟨[], [[some (.cls 9), none]]⟩]

/-- An environment whose only class has a super statement whose results are all
non-classes, so `object` gets substituted. -/
def basesEmptyEnv : List ClassDecl := [⟨[], [[none]]⟩]

/-- Witness for C6: on `basesExampleEnv` the surviving base is the class
result, and on `basesEmptyEnv` the substituted list is `[object]`. -/
theorem claim_C6_witness :
    (BaseRef.cls 9 ∈ evalSupers (lookupClass basesExampleEnv 0).supers
      ∨ (evalSupers (lookupClass basesExampleEnv 0).supers = []
          ∧ BaseRef.cls 9 = object_obj))
    ∧ py__bases__ basesEmptyEnv 0 = [object_obj] :=
  ⟨(claim_C6 basesExampleEnv 0).2.1 (BaseRef.cls 9) (by decide),
   (claim_C6 basesEmptyEnv 0).2.2 (by decide)⟩

/-- A hierarchy where only the grandparent `A` (id 0) defines `__call__`:
`A(object)` with `__call__`, `B(A)`, `C(B)`. -/
def callExampleEnv : List ClassDecl :=
  [⟨["__call__"], [[some object_obj]]⟩,
   ⟨[], [[some (.cls 0)]]⟩,
   ⟨[], [[some (.cls 1)]]⟩]

/-- Counterexample to C7 as stated: `__call__` exists on the resolution order
of `C` (on the grandparent `A`), yet accessing the call protocol of an instance
of `C` fails — `get_subscope_by_name` searches only the class and its direct
bases, not the full mro. -/
theorem claim_C7_counterexample :
    (∃ s, s ∈ py__mro__ callExampleEnv (.cls 2)
        ∧ "__call__" ∈ subscopesOf callExampleEnv s)
    ∧ instance_py__call__ callExampleEnv 2 = none :=
  ⟨⟨BaseRef.cls 0, by decide, by decide⟩, by decide⟩

/-- C7 (amended): accessing the call protocol of an Instance succeeds iff a
`__call__` subscope exists on the Class itself or one of its direct bases (not
the whole resolution order); otherwise the access raises, surfacing the
"not callable" error, which is the only caller-visible failure mode. -/
theorem claim_C7 (env : List ClassDecl) (i : Nat) :
    (instance_py__call__ env i).isSome
      ↔ ∃ s, s ∈ (BaseRef.cls i :: py__bases__ env i)
          ∧ "__call__" ∈ subscopesOf env s := by
  unfold instance_py__call__ get_subscope_by_name
  rw [List.find?_isSome]
  simp

/-!  ### `FunctionExecution.get_return_types`  -/

/-- An inferred type (the elements of the may-analysis type sets). -/
inductive Ty : Type where
  | int
  | str
  | other (n : Nat)
deriving DecidableEq

/-- The three reachability classes the external `flow_analysis.break_check`
collaborator returns for a return point. -/
inductive Reach : Type where
  | reachable
  | unreachable
  | unsure
deriving DecidableEq

/-- The expression of a return statement, as far as its evaluation is
concerned: a literal contributing one concrete type, or a call to another
function execution (identified by its key), whose evaluation yields that
execution's return types. -/
inductive RetExpr : Type where
  | lit (t : Ty)
  | call (k : Nat)
deriving DecidableEq

/-- One return point of a function body: `stmt` is the underlying expression
after unwrapping keyword-qualified return statements (`none` for null or
placeholder returns, which are skipped), and `reach` is the classification the
flow-analysis collaborator computes for its enclosing conditional structure. -/
structure ReturnPoint : Type where
  stmt : Option RetExpr
  reach : Reach
deriving DecidableEq

/-- A function execution as `get_return_types` sees it: whether the function
has dynamic-parameter listeners attached, the docstring-derived declared
return types, and the return points in source order. -/
structure FuncModel : Type where
  listeners : Bool
  docstringTypes : List Ty
  returns : List ReturnPoint

/-- The evaluation of one return expression (`self._evaluator.eval_statement`):
literals contribute their type, calls whatever the called execution returns. -/
def evalRetStmt (evalCall : Nat → List Ty) : RetExpr → List Ty
  | .lit t => [t]
  | .call k => evalCall k

/-- The return-point loop of `get_return_types`: skip placeholder returns; if
the reachability check is not UNREACHABLE, union the evaluated expression types
into the result; if it is REACHABLE, stop processing further return points. -/
def runReturns (evalStmt : RetExpr → List Ty) : List ReturnPoint → List Ty
  | [] => []
  | r :: rest =>
    match r.stmt with
    | none => runReturns evalStmt rest
    | some e =>
      if r.reach = Reach.unreachable then runReturns evalStmt rest
      else
        let types := evalStmt e
        if r.reach = Reach.reachable then types
        else types ++ runReturns evalStmt rest

/-- `FunctionExecution.get_return_types` over an environment mapping execution
keys to function models. The `stack` argument is the process-wide stack of
in-progress execution keys; checking membership before computing and pushing
the key around the recursive body is modelled from the spec
(`recursion.execution_recursion_decorator` of the recursion module): a
re-entrant key short-circuits to the empty default. `fuel` makes the recursion
structural; results are fuel-independent once fuel exceeds the number of
distinct keys (`claim_C3`). -/
def get_return_types (env : Nat → FuncModel) : Nat → List Nat → Nat → List Ty
  | 0, _, _ => []
  | fuel + 1, stack, k =>
    if k ∈ stack then []
    else
      let func := env k
      if func.listeners then []
      else
        func.docstringTypes ++
          runReturns (evalRetStmt (fun k2 => get_return_types env fuel (k :: stack) k2))
            func.returns

theorem runReturns_unreachable (f : RetExpr → List Ty) (l1 l2 : List ReturnPoint)
    (r : ReturnPoint) (h : r.reach = Reach.unreachable) :
    runReturns f (l1 ++ r :: l2) = runReturns f (l1 ++ l2) := by
  induction l1 with
  | nil =>
    cases hs : r.stmt with
    | none => simp [runReturns, hs]
    | some e => simp [runReturns, hs, h]
  | cons x t ih =>
    simp only [List.cons_append, runReturns]
    cases hs : x.stmt with
    | none => exact ih
    | some e =>
      by_cases hu : x.reach = Reach.unreachable
      · simp only [hu, if_true]
        exact ih
      · by_cases hr : x.reach = Reach.reachable
        · simp [hu, hr]
        · simp only [hu, if_false, hr]
          exact congrArg (fun z => f e ++ z) ih

theorem runReturns_reachable_stops (f : RetExpr → List Ty)
    (l1 l2 : List ReturnPoint) (r : ReturnPoint) (e : RetExpr)
    (hs : r.stmt = some e) (hr : r.reach = Reach.reachable) :
    runReturns f (l1 ++ r :: l2) = runReturns f (l1 ++ [r]) := by
  induction l1 with
  | nil =>
    simp [runReturns, hs, hr]
  | cons x t ih =>
    simp only [List.cons_append, runReturns]
    cases hxs : x.stmt with
    | none => exact ih
    | some xe =>
      by_cases hu : x.reach = Reach.unreachable
      · simp only [hu, if_true]
        exact ih
      · by_cases hxr : x.reach = Reach.reachable
        · simp [hu, hxr]
        · simp only [hu, if_false, hxr]
          exact congrArg (fun z => f xe ++ z) ih

/-- The reachability-short-circuit example: a function whose body is an
unconditional `return 1` followed by `return "x"`; both return points are
classified REACHABLE since neither sits in a conditional. -/
def reachExampleEnv : Nat → FuncModel := fun _ =>
  ⟨false, [], [⟨some (.lit .int), .reachable⟩, ⟨some (.lit .str), .reachable⟩]⟩

theorem runReturns_not_unreachable_adds (f : RetExpr → List Ty)
    (l2 : List ReturnPoint) (r : ReturnPoint) (e : RetExpr)
    (hs : r.stmt = some e) (hr : r.reach = Reach.unsure) :
    runReturns f (r :: l2) = f e ++ runReturns f l2 := by
  simp [runReturns, hs, hr]

/-- C2: the return-point loop processes return points in source order;
UNREACHABLE points contribute nothing, a point that is not UNREACHABLE unions
its expression's types into the result, everything after the first concrete
REACHABLE point is never processed, and for an unconditional `return 1`
followed by `return "x"` the inferred return types are exactly the integer
type. -/
theorem claim_C2 :
    (∀ (f : RetExpr → List Ty) (l1 l2 : List ReturnPoint) (r : ReturnPoint),
        r.reach = Reach.unreachable →
        runReturns f (l1 ++ r :: l2) = runReturns f (l1 ++ l2))
    ∧ (∀ (f : RetExpr → List Ty) (l2 : List ReturnPoint) (r : ReturnPoint)
        (e : RetExpr), r.stmt = some e → r.reach = Reach.unsure →
        runReturns f (r :: l2) = f e ++ runReturns f l2)
    ∧ (∀ (f : RetExpr → List Ty) (l1 l2 : List ReturnPoint) (r : ReturnPoint)
        (e : RetExpr), r.stmt = some e → r.reach = Reach.reachable →
        runReturns f (l1 ++ r :: l2) = runReturns f (l1 ++ [r]))
    ∧ (∀ fuel, get_return_types reachExampleEnv (fuel + 1) [] 0 = [Ty.int]) :=
  ⟨runReturns_unreachable, runReturns_not_unreachable_adds,
   runReturns_reachable_stops, fun fuel => rfl⟩

/-- Witness for C2: on the concrete two-return example the suffix after the
certainly-reachable first return point is discarded, and an unreachable point
contributes nothing. -/
theorem claim_C2_witness :
    runReturns (fun _ => []) ([] ++ (⟨some (.lit .int), .reachable⟩ : ReturnPoint)
        :: [⟨some (.lit .str), .reachable⟩])
      = runReturns (fun _ => []) ([] ++ [⟨some (.lit .int), .reachable⟩])
    ∧ runReturns (fun _ => []) ([] ++ (⟨some (.lit .str), .unreachable⟩ : ReturnPoint) :: [])
      = runReturns (fun _ => []) ([] ++ [])
    ∧ runReturns (fun _ => [Ty.str]) [⟨some (.lit .int), .unsure⟩]
      = (fun _ => [Ty.str]) (RetExpr.lit .int) ++ runReturns (fun _ => [Ty.str]) [] :=
  ⟨claim_C2.2.2.1 (fun _ => []) [] [⟨some (.lit .str), .reachable⟩]
      ⟨some (.lit .int), .reachable⟩ (.lit .int) rfl rfl,
   claim_C2.1 (fun _ => []) [] [] ⟨some (.lit .str), .unreachable⟩ rfl,
   claim_C2.2.1 (fun _ => [Ty.str]) [] ⟨some (.lit .int), .unsure⟩ (.lit .int) rfl rfl⟩

/-!  ### The recursion guard (claim C3)  -/

/-- Whether a return point's expression only calls executions with key below
`bound`. -/
def callTargetOK (bound : Nat) (r : ReturnPoint) : Bool :=
  match r.stmt with
  | some (RetExpr.call k) => decide (k < bound)
  | _ => true

/-- An environment whose first `bound` executions only call executions among
the first `bound`: the finitely many call shapes of one analysis. -/
def ClosedEnv (env : Nat → FuncModel) (bound : Nat) : Prop :=
  ∀ k, k < bound → ∀ r ∈ (env k).returns, callTargetOK bound r = true

theorem runReturns_congr (f g : RetExpr → List Ty) (l : List ReturnPoint)
    (h : ∀ r ∈ l, ∀ e, r.stmt = some e → f e = g e) :
    runReturns f l = runReturns g l := by
  induction l with
  | nil => rfl
  | cons x t ih =>
    have ht : ∀ r ∈ t, ∀ e, r.stmt = some e → f e = g e :=
      fun r hr => h r (List.mem_cons_of_mem _ hr)
    simp only [runReturns]
    cases hs : x.stmt with
    | none => exact ih ht
    | some e =>
      have hfg : f e = g e := h x (List.mem_cons_self _ _) e hs
      simp only [hfg, ih ht]

theorem nodup_bounded_length_le (l : List Nat) (K : Nat) (hn : l.Nodup)
    (hb : ∀ j ∈ l, j < K) : l.length ≤ K := by
  have hsub : l.toFinset ⊆ Finset.range K := by
    intro x hx
    rw [List.mem_toFinset] at hx
    exact Finset.mem_range.2 (hb x hx)
  have hcard := Finset.card_le_card hsub
  rwa [List.toFinset_card_of_nodup hn, Finset.card_range] at hcard

theorem get_return_types_stable (env : Nat → FuncModel) (K : Nat)
    (hc : ClosedEnv env K) :
    ∀ fuel1 fuel2 (stack : List Nat) (k : Nat), stack.Nodup →
      (∀ j ∈ stack, j < K) → k < K →
      K + 1 - stack.length ≤ fuel1 → K + 1 - stack.length ≤ fuel2 →
      get_return_types env fuel1 stack k = get_return_types env fuel2 stack k := by
  intro fuel1
  induction fuel1 with
  | zero =>
    intro fuel2 stack k hn hb hk h1 h2
    exfalso
    have := nodup_bounded_length_le stack K hn hb
    omega
  | succ n ih =>
    intro fuel2 stack k hn hb hk h1 h2
    have hlen := nodup_bounded_length_le stack K hn hb
    cases fuel2 with
    | zero => omega
    | succ m =>
      simp only [get_return_types]
      by_cases hmem : k ∈ stack
      · simp only [hmem, if_true]
      · simp only [hmem, if_false]
        by_cases hl : (env k).listeners
        · simp only [hl, if_true]
        · simp only [hl, if_false]
          have hcongr : runReturns
              (evalRetStmt (fun k2 => get_return_types env n (k :: stack) k2))
              (env k).returns
            = runReturns
              (evalRetStmt (fun k2 => get_return_types env m (k :: stack) k2))
              (env k).returns := by
            refine runReturns_congr _ _ _ ?_
            intro r hr e he
            cases e with
            | lit t => rfl
            | call k2 =>
              have hok := hc k hk r hr
              simp only [callTargetOK, he] at hok
              have hk2 : k2 < K := of_decide_eq_true hok
              refine ih m (k :: stack) k2 (List.nodup_cons.2 ⟨hmem, hn⟩) ?_ hk2 ?_ ?_
              · intro j hj
                rcases List.mem_cons.1 hj with rfl | hj
                · exact hk
                · exact hb j hj
              · simp only [List.length_cons]; omega
              · simp only [List.length_cons]; omega
          rw [hcongr]

/-- `f` defined as `return f(arguments)`: execution key 0's only return point
calls execution 0 again, unconditionally. -/
def selfRecEnv : Nat → FuncModel := fun _ =>
  ⟨false, [], [⟨some (.call 0), .reachable⟩]⟩

/-- C3: under the recursion guard, evaluating return types terminates — over
any environment whose call shapes stay among `K` executions the result is the
same for every fuel beyond `K`, i.e. the guarded recursion stabilizes — and for
`f` defined as `return f(arguments)` the re-entrant inner computation
short-circuits, yielding the empty type set at every fuel. -/
theorem claim_C3 :
    (∀ (env : Nat → FuncModel) (K k : Nat), ClosedEnv env K → k < K →
      ∀ fuel1 fuel2, K + 1 ≤ fuel1 → K + 1 ≤ fuel2 →
        get_return_types env fuel1 [] k = get_return_types env fuel2 [] k)
    ∧ (∀ fuel, get_return_types selfRecEnv fuel [] 0 = []) := by
  constructor
  · intro env K k hc hk fuel1 fuel2 h1 h2
    refine get_return_types_stable env K hc fuel1 fuel2 [] k List.nodup_nil ?_ hk ?_ ?_
    · intro j hj; cases hj
    · simpa using h1
    · simpa using h2
  · intro fuel
    match fuel with
    | 0 => rfl
    | 1 => rfl
    | m + 2 => rfl

/-- Witness for C3: the stabilization applied to the self-recursive function
with `K = 1` at fuels 2 and 3. -/
theorem claim_C3_witness :
    get_return_types selfRecEnv 2 [] 0 = get_return_types selfRecEnv 3 [] 0 :=
  claim_C3.1 selfRecEnv 1 0
    (by
      intro k hk r hr
      simp only [selfRecEnv] at hr
      rw [List.mem_singleton] at hr
      subst hr
      rfl)
    (by omega) 2 3 (by omega) (by omega)

/-!  ### `Function._decorated_func` and `Function.get_decorated_func`  -/

/-- An evaluation value as decorator resolution sees it: a raw `pr.Function`
node, a `Function` wrapper (with its `is_decorated` flag) around another value,
or any other object. -/
inductive DObj : Type where
  | prFunc (id : Nat)
  | funcW (base : DObj) (isDecorated : Bool)
  | otherObj (id : Nat)
deriving DecidableEq

/-- Python's `list.pop()`: remove and return the LAST element. -/
def pyPop (l : List DObj) : Option (DObj × List DObj) :=
  match l.getLast? with
  | none => none
  | some x => some (x, l.dropLast)

/-- The decorator loop of `Function._decorated_func`, over the reversed
decorator list. `execute dec arg` is the external evaluator's
`execute(decorator, (old_func,))`. Each iteration pops the last candidate of
the decorator's evaluation results (warning when more remained), wraps the
current value as an already-decorated `Function`, executes the decorator on it,
and continues with the first wrapper result (warning when there were several);
an empty candidate or wrapper list aborts with `none`. The second component
collects the diagnostics logged along the way. -/
def decLoop (execute : DObj → DObj → List DObj) :
    List (List DObj) → DObj → Option DObj × List String
  | [], f => (some f, [])
  | decResults :: rest, f =>
    match pyPop decResults with
    | none => (none, ["decorator not found"])
    | some (decorator, remaining) =>
      match execute decorator (DObj.funcW f true) with
      | [] =>
        (none,
          (if remaining = [] then [] else ["multiple decorators found"])
            ++ ["no wrappers found"])
      | w :: ws =>
        ((decLoop execute rest w).1,
          (if remaining = [] then [] else ["multiple decorators found"])
            ++ (if ws = [] then [] else ["multiple wrappers found"])
            ++ (decLoop execute rest w).2)

/-- `Function._decorated_func` for the function node `funcId` whose decorators
evaluate (in source order) to the candidate lists `decorators`: run the loop
unless the function is already marked decorated, and re-wrap a raw function
result as an already-decorated `Function`. `none` means resolution aborted. -/
def _decorated_func (execute : DObj → DObj → List DObj) (funcId : Nat)
    (decorators : List (List DObj)) (is_decorated : Bool) :
    Option DObj × List String :=
  let r := if is_decorated then (some (DObj.prFunc funcId), ([] : List String))
           else decLoop execute decorators.reverse (DObj.prFunc funcId)
  match r.1 with
  | none => (none, r.2)
  | some f =>
    (some (match f with
           | DObj.prFunc i => DObj.funcW (DObj.prFunc i) true
           | other => other), r.2)

/-- `Function.get_decorated_func`: the always-succeeding variant — when
`_decorated_func` aborted, fall back to the original function marked as
already decorated. -/
def get_decorated_func (execute : DObj → DObj → List DObj) (funcId : Nat)
    (decorators : List (List DObj)) (is_decorated : Bool) : DObj :=
  match (_decorated_func execute funcId decorators is_decorated).1 with
  | some f => f
  | none => DObj.funcW (DObj.prFunc funcId) true

/-- An evaluator whose execution of a decorator returns the decorator itself,
making the chosen candidate observable in the result. -/
def pickExecute : DObj → DObj → List DObj := fun dec _ => [dec]

/-- Counterexample to C4 as stated: when a decorator expression evaluates to
the two candidates `[otherObj 1, otherObj 2]`, the candidate invoked is
`otherObj 2` — the LAST one (`dec_results.pop()` pops the tail of a Python
list), not the first — while the ambiguity diagnostic is logged. -/
theorem claim_C4_counterexample :
    _decorated_func pickExecute 7 [[DObj.otherObj 1, DObj.otherObj 2]] false
      = (some (DObj.otherObj 2), ["multiple decorators found"])
    ∧ DObj.otherObj 2 ≠ DObj.otherObj 1 := ⟨rfl, by decide⟩

/-- C4 (amended): when a decorator expression evaluates to several candidates,
the LAST candidate (Python `list.pop()`) is the one invoked on the
not-yet-decorated function wrapper — the outcome equals the outcome of
resolution with only that last candidate — and the ambiguity diagnostic is
logged; the tie-break is deterministic. -/
theorem claim_C4 (execute : DObj → DObj → List DObj) (cands : List DObj)
    (rest : List (List DObj)) (f d : DObj) (remaining : List DObj) :
    (pyPop cands = some (d, remaining) →
        cands.getLast? = some d
        ∧ (decLoop execute (cands :: rest) f).1
            = (decLoop execute ([d] :: rest) f).1)
    ∧ (1 < cands.length →
        "multiple decorators found" ∈ (decLoop execute (cands :: rest) f).2) := by
  constructor
  · intro h
    have hlast : cands.getLast? = some d := by
      unfold pyPop at h
      cases hl : cands.getLast? with
      | none => rw [hl] at h; cases h
      | some x =>
        rw [hl] at h
        simp only [Option.some.injEq, Prod.mk.injEq] at h
        rw [h.1]
    refine ⟨hlast, ?_⟩
    have hpop1 : pyPop [d] = some (d, []) := rfl
    simp only [decLoop, h, hpop1]
    cases hE : execute d (DObj.funcW f true) with
    | nil => rfl
    | cons w ws => rfl
  · intro hlen
    have hne : cands ≠ [] := by
      intro hc
      rw [hc] at hlen
      simp at hlen
    obtain ⟨x, hx⟩ : ∃ x, cands.getLast? = some x := by
      cases hl : cands.getLast? with
      | none =>
        rw [List.getLast?_eq_none_iff] at hl
        exact absurd hl hne
      | some x => exact ⟨x, rfl⟩
    have hpop : pyPop cands = some (x, cands.dropLast) := by
      unfold pyPop
      rw [hx]
    have hrem : cands.dropLast ≠ [] := by
      intro h0
      have hlen0 := congrArg List.length h0
      rw [List.length_dropLast] at hlen0
      simp at hlen0
      omega
    simp only [decLoop, hpop]
    cases hE : execute x (DObj.funcW f true) with
    | nil => simp [hrem]
    | cons w ws => simp [hrem]

/-- Witness for C4: the amended selection rule applied to the concrete
two-candidate decorator of the counterexample. -/
theorem claim_C4_witness :
    ([DObj.otherObj 1, DObj.otherObj 2].getLast? = some (DObj.otherObj 2)
      ∧ (decLoop pickExecute ([[DObj.otherObj 1, DObj.otherObj 2]] : List (List DObj))
            (DObj.prFunc 7)).1
          = (decLoop pickExecute [[DObj.otherObj 2]] (DObj.prFunc 7)).1)
    ∧ "multiple decorators found"
        ∈ (decLoop pickExecute [[DObj.otherObj 1, DObj.otherObj 2]] (DObj.prFunc 7)).2 :=
  ⟨(claim_C4 pickExecute [DObj.otherObj 1, DObj.otherObj 2] [] (DObj.prFunc 7)
      (DObj.otherObj 2) [DObj.otherObj 1]).1 rfl,
   (claim_C4 pickExecute [DObj.otherObj 1, DObj.otherObj 2] [] (DObj.prFunc 7)
      (DObj.otherObj 2) [DObj.otherObj 1]).2 (by decide)⟩

/-- C5: `get_decorated_func` always returns a callable — when `_decorated_func`
aborts (returns no result), the original function marked already-decorated is
returned; when it succeeds, its result is returned; and aborting is reachable,
e.g. with a decorator expression that evaluates to no candidate. -/
theorem claim_C5 (execute : DObj → DObj → List DObj) (funcId : Nat)
    (decorators : List (List DObj)) (is_decorated : Bool) :
    ((_decorated_func execute funcId decorators is_decorated).1 = none →
        get_decorated_func execute funcId decorators is_decorated
          = DObj.funcW (DObj.prFunc funcId) true)
    ∧ (∀ f, (_decorated_func execute funcId decorators is_decorated).1 = some f →
        get_decorated_func execute funcId decorators is_decorated = f)
    ∧ (_decorated_func execute funcId [[]] false).1 = none
    ∧ get_decorated_func execute funcId [[]] false
        = DObj.funcW (DObj.prFunc funcId) true := by
  refine ⟨?_, ?_, rfl, rfl⟩
  · intro h
    unfold get_decorated_func
    rw [h]
  · intro f h
    unfold get_decorated_func
    rw [h]

/-- Witness for C5: the abort fallback on an empty-candidate decorator, and the
pass-through on an undecorated function. -/
theorem claim_C5_witness :
    get_decorated_func pickExecute 3 [[]] false = DObj.funcW (DObj.prFunc 3) true
    ∧ get_decorated_func pickExecute 9 [] false
        = DObj.funcW (DObj.prFunc 9) true :=
  ⟨(claim_C5 pickExecute 3 [[]] false).1 rfl,
   (claim_C5 pickExecute 9 [] false).2.1 (DObj.funcW (DObj.prFunc 9) true) rfl⟩

/-!  ### The wrapper factory `wrap`  -/

/-- The kinds of input the factory distinguishes: class nodes, function nodes,
raw module nodes, modules already wrapped as `ModuleWrapper`, and everything
else (statements, tokens, compiled objects, already-wrapped entities …). -/
inductive RawNode : Type where
  | classNode (id : Nat)
  | funcNode (id : Nat)
  | moduleNode (id : Nat)
  | moduleWrapperNode (id : Nat)
  | otherNode (id : Nat)
deriving DecidableEq

/-- The factory's result: a wrapper object identified by its reference id (the
allocation identity that makes `is`-style comparison meaningful), or the input
returned unchanged. -/
inductive WrapResult : Type where
  | classW (ref : Nat)
  | functionW (ref : Nat)
  | moduleW (ref : Nat)
  | unchanged (n : RawNode)
deriving DecidableEq

/-- Modelled from the spec: the session-scoped identity cache of
`CachedMetaClass` (the cache module) — a map from the raw node to the
reference id of the wrapper already constructed for it, plus the next fresh
reference id. -/
structure Session : Type where
  cache : RawNode → Option Nat
  nextRef : Nat

/-- Modelled from the spec: constructing a wrapper through `CachedMetaClass` —
return the cached wrapper's reference for this node if present, otherwise
allocate a fresh reference and record it. -/
def cachedNew (s : Session) (n : RawNode) : Nat × Session :=
  match s.cache n with
  | some ref => (ref, s)
  | none =>
    (s.nextRef,
     ⟨fun m => if m = n then some s.nextRef else s.cache m, s.nextRef + 1⟩)

/-- `wrap`: Class for class nodes, Function for function nodes, ModuleWrapper
for module nodes not already wrapped, and everything else unchanged. Total by
construction — no input raises. -/
def wrap (s : Session) (n : RawNode) : WrapResult × Session :=
  match n with
  | .classNode _ => (WrapResult.classW (cachedNew s n).1, (cachedNew s n).2)
  | .funcNode _ => (WrapResult.functionW (cachedNew s n).1, (cachedNew s n).2)
  | .moduleNode _ => (WrapResult.moduleW (cachedNew s n).1, (cachedNew s n).2)
  | .moduleWrapperNode _ => (WrapResult.unchanged n, s)
  | .otherNode _ => (WrapResult.unchanged n, s)

theorem cachedNew_stable (s : Session) (n : RawNode) :
    cachedNew (cachedNew s n).2 n = cachedNew s n := by
  unfold cachedNew
  cases h : s.cache n with
  | some ref => simp [h]
  | none => simp [h]

/-- C8: the wrapper factory is identity-stable and total — wrapping the same
node twice in one session returns the identical wrapper (same reference, and
the session is unchanged by the second call), class nodes become Class
wrappers, function nodes Function wrappers, unwrapped module nodes
ModuleWrapper wrappers, and every other input (including already-wrapped
modules) is returned unchanged. -/
theorem claim_C8 (s : Session) :
    (∀ n, wrap (wrap s n).2 n = wrap s n)
    ∧ (∀ i, ∃ r, (wrap s (RawNode.classNode i)).1 = WrapResult.classW r)
    ∧ (∀ i, ∃ r, (wrap s (RawNode.funcNode i)).1 = WrapResult.functionW r)
    ∧ (∀ i, ∃ r, (wrap s (RawNode.moduleNode i)).1 = WrapResult.moduleW r)
    ∧ (∀ i, (wrap s (RawNode.moduleWrapperNode i)).1
          = WrapResult.unchanged (RawNode.moduleWrapperNode i))
    ∧ (∀ i, (wrap s (RawNode.otherNode i)).1
          = WrapResult.unchanged (RawNode.otherNode i)) := by
  refine ⟨?_, fun i => ⟨_, rfl⟩, fun i => ⟨_, rfl⟩, fun i => ⟨_, rfl⟩,
          fun i => rfl, fun i => rfl⟩
  intro n
  cases n with
  | classNode i => simp [wrap, cachedNew_stable]
  | funcNode i => simp [wrap, cachedNew_stable]
  | moduleNode i => simp [wrap, cachedNew_stable]
  | moduleWrapperNode i => rfl
  | otherNode i => rfl

/-!  ### `Instance.get_self_attributes`  -/

/-- A subscope of a class body as the self-attribute harvest sees it: its
name, whether it is a nested class (skipped), its declared parameter names,
its number of decorators, and its defined names, each a dotted name path given
as its segments. -/
structure JMethod : Type where
  name : String
  isClass : Bool
  paramNames : List String
  decorators : Nat
  definedNames : List (List String)
deriving DecidableEq

/-- `FunctionExecution.get_defined_names` of a method execution: the bound
parameters (single-segment names) followed by the scope's defined names. -/
def execution_defined_names (m : JMethod) : List (List String) :=
  m.paramNames.map (fun p => [p]) ++ m.definedNames

/-- The names the harvesting loop scans for one method: for an undecorated
constructor the method is first evaluated as a `FunctionExecution` (so its
defined names are the execution's), otherwise the raw function's defined
names are used. -/
def method_defined_names (m : JMethod) : List (List String) :=
  if m.name = "__init__" ∧ m.decorators = 0 then execution_defined_names m
  else m.definedNames

/-- Keep exactly the two-segment names whose first segment is the method's
first-parameter name, stripped of that leading receiver segment
(`add_self_dot_name`). -/
def self_name_filter (selfName : String) (names : List (List String)) :
    List (List String) :=
  names.filterMap (fun n =>
    if n.head? = some selfName ∧ n.length = 2 then some n.tail else none)

/-- The self-attribute names one method contributes in
`Instance.get_self_attributes`: nothing for nested classes or methods without
a determinable first-parameter name. -/
def method_self_names (m : JMethod) : List (List String) :=
  if m.isClass then []
  else
    match m.paramNames with
    | [] => []
    | selfName :: _ =>
      if selfName = "" then []
      else self_name_filter selfName (method_defined_names m)

/-- `Instance.get_self_attributes`: the concatenation of every own method's
harvested names followed by the attributes recursively collected from the
base classes' instances (passed in, since that recursion goes through the
external evaluator). -/
def get_self_attributes (subs : List JMethod)
    (baseAttrs : List (List (List String))) : List (List String) :=
  (subs.map method_self_names).flatten ++ baseAttrs.flatten

/-- Follows the spec's words for the amended claim: the two-segment
`<first-param>.<attr>` names among the method's statically defined names,
stripped of the receiver segment. -/
def raw_self_names (m : JMethod) : List (List String) :=
  if m.isClass then []
  else
    match m.paramNames with
    | [] => []
    | selfName :: _ =>
      if selfName = "" then []
      else self_name_filter selfName m.definedNames

theorem self_name_filter_params (selfName : String) (params : List String)
    (names : List (List String)) :
    self_name_filter selfName (params.map (fun p => [p]) ++ names)
      = self_name_filter selfName names := by
  induction params with
  | nil => rfl
  | cons p t ih =>
    simp only [List.map_cons, List.cons_append, self_name_filter,
      List.filterMap_cons] at ih ⊢
    have hcond : ¬(([p] : List String).head? = some selfName
        ∧ ([p] : List String).length = 2) := by
      intro hc
      simp at hc
    rw [if_neg hcond]
    exact ih

/-- A decorated constructor with the statically assigned attribute `self.x`. -/
def decoratedInit : JMethod := ⟨"__init__", false, ["self"], 1, [["self", "x"]]⟩

/-- Counterexample to C9 as stated: a constructor carrying a decorator is not
skipped — it still contributes the self-attribute `x` harvested from its
statically defined names; only the `FunctionExecution` evaluation step is
skipped. -/
theorem claim_C9_counterexample :
    get_self_attributes [decoratedInit] [] = [["x"]]
    ∧ ([["x"]] : List (List String)) ≠ [] := ⟨rfl, by decide⟩

/-- C9 (amended): the constructor is evaluated as a `FunctionExecution` only
when it carries no decorators — a decorated constructor merely skips that
execution step, its statically defined names are still scanned — and, since
execution only injects single-segment parameter names, every method
(constructor or not, decorated or not) whose first parameter name is
determinable contributes exactly the two-segment `<first-param>.<attr>` names
among its defined names, re-rooted onto the Instance. -/
theorem claim_C9 :
    (∀ m : JMethod, ¬(m.name = "__init__" ∧ m.decorators = 0) →
        method_defined_names m = m.definedNames)
    ∧ (∀ m : JMethod, m.name = "__init__" ∧ m.decorators = 0 →
        method_defined_names m = execution_defined_names m)
    ∧ (∀ m : JMethod, method_self_names m = raw_self_names m) := by
  refine ⟨?_, ?_, ?_⟩
  · intro m h
    unfold method_defined_names
    rw [if_neg h]
  · intro m h
    unfold method_defined_names
    rw [if_pos h]
  · intro m
    unfold method_self_names raw_self_names
    by_cases hc : m.isClass
    · simp [hc]
    · simp only [hc, Bool.false_eq_true, if_false]
      cases hp : m.paramNames with
      | nil => rfl
      | cons selfName rest =>
        by_cases hs : selfName = ""
        · simp [hs]
        · simp only [hs, if_false]
          unfold method_defined_names
          by_cases hinit : m.name = "__init__" ∧ m.decorators = 0
          · rw [if_pos hinit]
            unfold execution_defined_names
            exact self_name_filter_params _ _ _
          · rw [if_neg hinit]

/-- Witness for C9: a decorated constructor keeps its raw defined names, an
undecorated one is routed through its execution. -/
theorem claim_C9_witness :
    method_defined_names decoratedInit = decoratedInit.definedNames
    ∧ method_defined_names ⟨"__init__", false, ["self"], 0, [["self", "x"]]⟩
        = execution_defined_names ⟨"__init__", false, ["self"], 0, [["self", "x"]]⟩ :=
  ⟨claim_C9.1 decoratedInit (by decide),
   claim_C9.2.1 ⟨"__init__", false, ["self"], 0, [["self", "x"]]⟩ (by decide)⟩

/-!  ### `get_instance_el`  -/

/-- The kinds of element `get_instance_el` distinguishes. -/
inductive Element : Type where
  | instanceEl (id : Nat)
  | compiledEl (id : Nat)
  | operatorEl (id : Nat)
  | tokenEl (id : Nat)
  | moduleEl (id : Nat)
  | funcExecEl (id : Nat)
  | prFuncEl (id : Nat)
  | prClassEl (id : Nat)
  | otherEl (id : Nat)
deriving DecidableEq

/-- What an `InstanceElement` wraps: a raw function or class promoted to its
`Function`/`Class` wrapper, or the element as given. -/
inductive IEVar : Type where
  | functionWrapper (id : Nat)
  | classWrapper (id : Nat)
  | plain (e : Element)
deriving DecidableEq

/-- The result of `get_instance_el`: the element untouched, or an
`InstanceElement` proxy binding the wrapped element to the given instance. -/
inductive IEResult : Type where
  | untouched (e : Element)
  | instanceElement (instanceId : Nat) (var : IEVar) (isClassVar : Bool)
deriving DecidableEq

/-- `get_instance_el`: Instances, compiled objects, operators, tokens, modules
and FunctionExecutions are returned unchanged; raw functions and classes are
promoted to their wrappers first; everything else is wrapped in an
`InstanceElement` bound to the instance. -/
def get_instance_el (instanceId : Nat) (var : Element) (isClassVar : Bool) :
    IEResult :=
  match var with
  | .instanceEl _ | .compiledEl _ | .operatorEl _ | .tokenEl _ | .moduleEl _
  | .funcExecEl _ => IEResult.untouched var
  | .prFuncEl i => IEResult.instanceElement instanceId (.functionWrapper i) isClassVar
  | .prClassEl i => IEResult.instanceElement instanceId (.classWrapper i) isClassVar
  | .otherEl _ => IEResult.instanceElement instanceId (.plain var) isClassVar

/-- C10: `get_instance_el` returns Instances, compiled objects, operators,
tokens, modules and FunctionExecutions unchanged — the receiver-context
rebinding does not extend through elements of those kinds — while raw
functions and classes are first promoted to their wrappers and then wrapped,
and every other element is wrapped as-is. -/
theorem claim_C10 (inst : Nat) (b : Bool) (i : Nat) :
    get_instance_el inst (.instanceEl i) b = .untouched (.instanceEl i)
    ∧ get_instance_el inst (.compiledEl i) b = .untouched (.compiledEl i)
    ∧ get_instance_el inst (.operatorEl i) b = .untouched (.operatorEl i)
    ∧ get_instance_el inst (.tokenEl i) b = .untouched (.tokenEl i)
    ∧ get_instance_el inst (.moduleEl i) b = .untouched (.moduleEl i)
    ∧ get_instance_el inst (.funcExecEl i) b = .untouched (.funcExecEl i)
    ∧ get_instance_el inst (.prFuncEl i) b
        = .instanceElement inst (.functionWrapper i) b
    ∧ get_instance_el inst (.prClassEl i) b
        = .instanceElement inst (.classWrapper i) b
    ∧ get_instance_el inst (.otherEl i) b
        = .instanceElement inst (.plain (.otherEl i)) b :=
  ⟨rfl, rfl, rfl, rfl, rfl, rfl, rfl, rfl, rfl⟩

end Jedi
